import Mathlib

/-!
Verification of `scripts/fonts/convert-texgyre-fonts.py`.

The script batch-converts TrueType fonts into PostScript Type 42 wrapper
files.  The fontTools library (`TTFont`, `subset`) is external to the
repository; a loaded-and-subsetted font is modelled by the `Font` structure
below (best cmap, glyph order, head-table bounding box, serialized bytes).
Everything the script itself computes — the static tables built at module
load, the CharStrings list, and the text written to the output file — is
translated directly from the source.
-/

namespace TexGyre

/-- Model of a fontTools `TTFont` object as the script observes it:
`cmap` is the association list behind `tt.getBestCmap()` (code point →
glyph name), `glyphOrder` is the glyph order of the font (so `tt.getGlyphID`
is the index in this list), `xMin`/`yMin`/`xMax`/`yMax` are the fields of
the `head` table, and `binaryData` is the byte sequence `tt.save` writes. -/
structure Font where
  cmap : List (Nat × String)
  glyphOrder : List String
  xMin : Int
  yMin : Int
  xMax : Int
  yMax : Int
  binaryData : List Nat

/-- Well-formedness of the external font object: the best cmap is a real
dictionary (no duplicate code points), every glyph name it produces is a
glyph of the font, and the serialized data consists of bytes. -/
def Font.WF (f : Font) : Prop :=
  (f.cmap.map Prod.fst).Nodup ∧
  (∀ p ∈ f.cmap, p.2 ∈ f.glyphOrder) ∧
  (∀ b ∈ f.binaryData, b < 256)

/-- `uni in cmap` / `cmap[uni]`: dictionary lookup in the best cmap. -/
def cmapLookup (f : Font) (uni : Nat) : Option String :=
  (f.cmap.find? (fun p => p.1 == uni)).map (fun p => p.2)

/-- `tt.getGlyphID(glyph_name)`: index of the glyph name in the glyph
order of the font. -/
def getGlyphID (f : Font) (glyph_name : String) : Nat :=
  f.glyphOrder.indexOf glyph_name

/-- `PS_TO_FILENAME`: the static PostScript-name → source-filename dict,
in its (insertion-ordered) literal order. -/
def PS_TO_FILENAME : List (String × String) :=
  [("TG-Heros",             "texgyreheros-regular.ttf"),
   ("TG-Heros-Bold",        "texgyreheros-bold.ttf"),
   ("TG-Heros-Oblique",     "texgyreheros-italic.ttf"),
   ("TG-Heros-BoldOblique", "texgyreheros-bolditalic.ttf"),
   ("TG-Heros-Narrow",             "texgyreheroscn-regular.ttf"),
   ("TG-Heros-Narrow-Bold",        "texgyreheroscn-bold.ttf"),
   ("TG-Heros-Narrow-Oblique",     "texgyreheroscn-italic.ttf"),
   ("TG-Heros-Narrow-BoldOblique", "texgyreheroscn-bolditalic.ttf"),
   ("TG-Termes",             "texgyretermes-regular.ttf"),
   ("TG-Termes-Bold",        "texgyretermes-bold.ttf"),
   ("TG-Termes-Italic",      "texgyretermes-italic.ttf"),
   ("TG-Termes-BoldItalic",  "texgyretermes-bolditalic.ttf"),
   ("TG-Cursor",             "texgyrecursor-regular.ttf"),
   ("TG-Cursor-Bold",        "texgyrecursor-bold.ttf"),
   ("TG-Cursor-Oblique",     "texgyrecursor-italic.ttf"),
   ("TG-Cursor-BoldOblique", "texgyrecursor-bolditalic.ttf"),
   ("TG-Adventor",             "texgyreadventor-regular.ttf"),
   ("TG-Adventor-Bold",        "texgyreadventor-bold.ttf"),
   ("TG-Adventor-Oblique",     "texgyreadventor-italic.ttf"),
   ("TG-Adventor-BoldOblique", "texgyreadventor-bolditalic.ttf"),
   ("TG-Bonum",             "texgyrebonum-regular.ttf"),
   ("TG-Bonum-Bold",        "texgyrebonum-bold.ttf"),
   ("TG-Bonum-Oblique",     "texgyrebonum-italic.ttf"),
   ("TG-Bonum-BoldOblique", "texgyrebonum-bolditalic.ttf"),
   ("TG-Schola",             "texgyreschola-regular.ttf"),
   ("TG-Schola-Bold",        "texgyreschola-bold.ttf"),
   ("TG-Schola-Oblique",     "texgyreschola-italic.ttf"),
   ("TG-Schola-BoldOblique", "texgyreschola-bolditalic.ttf"),
   ("TG-Pagella",             "texgyrepagella-regular.ttf"),
   ("TG-Pagella-Bold",        "texgyrepagella-bold.ttf"),
   ("TG-Pagella-Oblique",     "texgyrepagella-italic.ttf"),
   ("TG-Pagella-BoldOblique", "texgyrepagella-bolditalic.ttf"),
   ("TG-Chorus", "texgyrechorus-mediumitalic.ttf")]

/-- The dict literal `STD_ENC_MAP = { ... }` before the three loops run. -/
def stdEncBase : List (String × Nat) :=
  [("space", 0x0020), ("exclam", 0x0021), ("quotedbl", 0x0022), ("numbersign", 0x0023),
   ("dollar", 0x0024), ("percent", 0x0025), ("ampersand", 0x0026), ("quoteright", 0x0027),
   ("parenleft", 0x0028), ("parenright", 0x0029), ("asterisk", 0x002A), ("plus", 0x002B),
   ("comma", 0x002C), ("hyphen", 0x002D), ("period", 0x002E), ("slash", 0x002F),
   ("colon", 0x003A), ("semicolon", 0x003B), ("less", 0x003C), ("equal", 0x003D),
   ("greater", 0x003E), ("question", 0x003F), ("at", 0x0040), ("bracketleft", 0x005B),
   ("backslash", 0x005C), ("bracketright", 0x005D), ("asciicircum", 0x005E),
   ("underscore", 0x005F), ("quoteleft", 0x0060), ("braceleft", 0x007B), ("bar", 0x007C),
   ("braceright", 0x007D), ("asciitilde", 0x007E),
   ("exclamdown", 0x00A1), ("cent", 0x00A2), ("sterling", 0x00A3), ("fraction", 0x2044),
   ("yen", 0x00A5), ("florin", 0x0192), ("section", 0x00A7), ("currency", 0x00A4),
   ("quotesingle", 0x0027), ("quotedblleft", 0x201C), ("guillemotleft", 0x00AB),
   ("guilsinglleft", 0x2039), ("guilsinglright", 0x203A), ("fi", 0xFB01), ("fl", 0xFB02),
   ("endash", 0x2013), ("dagger", 0x2020), ("daggerdbl", 0x2021), ("periodcentered", 0x00B7),
   ("paragraph", 0x00B6), ("bullet", 0x2022), ("quotesinglbase", 0x201A),
   ("quotedblbase", 0x201E), ("quotedblright", 0x201D), ("guillemotright", 0x00BB),
   ("ellipsis", 0x2026), ("perthousand", 0x2030), ("questiondown", 0x00BF), ("grave", 0x0060),
   ("acute", 0x00B4), ("circumflex", 0x02C6), ("tilde", 0x02DC), ("macron", 0x00AF),
   ("breve", 0x02D8), ("dotaccent", 0x02D9), ("dieresis", 0x00A8), ("ring", 0x02DA),
   ("cedilla", 0x00B8), ("hungarumlaut", 0x02DD), ("ogonek", 0x02DB), ("caron", 0x02C7),
   ("emdash", 0x2014), ("AE", 0x00C6), ("ordfeminine", 0x00AA), ("Lslash", 0x0141),
   ("Oslash", 0x00D8), ("OE", 0x0152), ("ordmasculine", 0x00BA), ("ae", 0x00E6),
   ("dotlessi", 0x0131), ("lslash", 0x0142), ("oslash", 0x00F8), ("oe", 0x0153),
   ("germandbls", 0x00DF), ("minus", 0x2212)]

/-- Python dict assignment `d[k] = v`: overwrite in place when the key
exists, append otherwise. -/
def dictInsert (d : List (String × Nat)) (k : String) (v : Nat) : List (String × Nat) :=
  if d.any (fun p => p.1 == k) then
    d.map (fun p => if p.1 == k then (k, v) else p)
  else
    d ++ [(k, v)]

/-- The list literal indexed by the digits loop. -/
def digitNames : List String :=
  ["zero", "one", "two", "three", "four", "five", "six", "seven", "eight", "nine"]

/-- `STD_ENC_MAP` after the three `for` loops that add the digit names,
`A`–`Z` and `a`–`z` at module load. -/
def STD_ENC_MAP : List (String × Nat) :=
  let d := stdEncBase
  let d := (List.range 10).foldl (fun d i => dictInsert d (digitNames.getD i "") (0x30 + i)) d
  let d := (List.range 26).foldl (fun d i => dictInsert d (String.mk [Char.ofNat (65 + i)]) (65 + i)) d
  (List.range 26).foldl (fun d i => dictInsert d (String.mk [Char.ofNat (97 + i)]) (97 + i)) d

/-- The glyph-name/glyph-ID pairs collected by the
`for name, uni in STD_ENC_MAP.items()` loop (the data inside each
`f"/{name} {gid} def"` string). -/
def charstringEntriesOf (table : List (String × Nat)) (f : Font) : List (String × Nat) :=
  table.filterMap (fun p =>
    match cmapLookup f p.2 with
    | some glyph_name => some (p.1, getGlyphID f glyph_name)
    | none => none)

/-- One element of the `charstrings` list: `f"/{name} {gid} def"`. -/
def renderCharstring (e : String × Nat) : String :=
  "/" ++ e.1 ++ " " ++ toString e.2 ++ " def"

/-- The `charstrings` list of formatted strings built by the loop
(`charstrings.append(f"/{name} {gid} def")`). -/
def charstringsOf (table : List (String × Nat)) (f : Font) : List String :=
  (charstringEntriesOf table f).map renderCharstring

/-- Python `str.replace` (leftmost, non-overlapping occurrences) on
character lists, driven by structural fuel; `fuel = s.length` suffices for
a non-empty pattern such as the `".ttf"` used by the script. -/
def replaceAux (pat rep : List Char) : Nat → List Char → List Char
  | _, [] => []
  | 0, s => s
  | fuel + 1, c :: cs =>
    if pat.isPrefixOf (c :: cs) then rep ++ replaceAux pat rep fuel ((c :: cs).drop pat.length)
    else c :: replaceAux pat rep fuel cs

/-- `filename.replace(".ttf", "")` and friends. -/
def pyReplace (s pat rep : String) : String :=
  ⟨replaceAux pat.data rep.data s.data.length s.data⟩

/-- One byte to its two lowercase hex digits, as `binascii.hexlify`
produces for byte values (< 256). -/
def hexDigitLower (k : Nat) : Char :=
  "0123456789abcdef".data.getD k '0'

/-- `binascii.hexlify(chunk)` decoded to characters (lowercase). -/
def hexlifyLower (bs : List Nat) : List Char :=
  bs.flatMap (fun b => [hexDigitLower (b / 16), hexDigitLower (b % 16)])

/-- ASCII uppercasing of one character, the effect of `str.upper()` on
the ASCII-only strings the script uppercases. -/
def asciiUpper (c : Char) : Char :=
  if 97 ≤ c.toNat ∧ c.toNat ≤ 122 then Char.ofNat (c.toNat - 32) else c

/-- `hex_str = binascii.hexlify(chunk).decode("ascii").upper()`. -/
def hexStrOf (chunk : List Nat) : List Char :=
  (hexlifyLower chunk).map asciiUpper

/-- The slicing loop
`while offset < len(l): chunk = l[offset : offset + n]; offset += n`,
with structural fuel (`l.length` steps always suffice when `n > 0`). -/
def chunksOfAux (n : Nat) : Nat → List α → List (List α)
  | _, [] => []
  | 0, _ :: _ => []
  | fuel + 1, c :: cs => ((c :: cs).take n) :: chunksOfAux n fuel ((c :: cs).drop n)

/-- The consecutive `n`-sized slices of `l` (last one possibly shorter). -/
def chunksOf (n : Nat) (l : List α) : List (List α) :=
  chunksOfAux n l.length l

/-- The `sfnts` binary segments: `CHUNK_SIZE = 32768` slices of the
serialized font data. -/
def sfntsChunks (binary_data : List Nat) : List (List Nat) :=
  chunksOf 32768 binary_data

/-- The 70-hex-character line slices of the hex string of one segment. -/
def hexLineChunks (hex_str : List Char) : List (List Char) :=
  chunksOf 70 hex_str

/-- The writes of the inner wrapping loop: the first line slice is written
as `f"{segment}\n"`, later ones as `f"      {segment}\n"`. -/
def segmentWrites (hex_str : List Char) : List String :=
  (hexLineChunks hex_str).enum.map (fun p =>
    (if p.1 == 0 then "" else "      ") ++ String.mk p.2 ++ "\n")

/-- All writes of the `sfnts` loop: for each 32768-byte segment a
`"    <"`, the wrapped hex lines, and a `"    >\n"`. -/
def sfntsWrites (binary_data : List Nat) : List String :=
  (sfntsChunks binary_data).flatMap (fun chunk =>
    "    <" :: (segmentWrites (hexStrOf chunk) ++ ["    >\n"]))

/-- The writes of the CharStrings loop: `f"    {c}"` followed by a newline
after every fourth entry (`c_count % 4 == 0` with `c_count` starting at 1)
and a space otherwise. -/
def charstringWrites (charstrings : List String) : List String :=
  charstrings.enum.flatMap (fun p =>
    [("    " ++ p.2), if (p.1 + 1) % 4 == 0 then "\n" else " "])

/-- `os.path.join(dirname, "ttfs", filename)` with the script directory
prefix elided (all paths are relative to the script directory). -/
def sourcePathOf (filename : String) : String :=
  "ttfs/" ++ filename

/-- `os.path.join(dirname, "output", f"{ps_name}.ps")`, script directory
elided. -/
def outNameOf (ps_name : String) : String :=
  "output/" ++ (ps_name ++ ".ps")

/-- The full sequence of `f.write(...)` calls producing the output file,
in order, for the already-subsetted font `t`. -/
def fileWrites (table : List (String × Nat)) (ps_name filename : String) (t : Font) :
    List String :=
  ["% Derived from " ++ pyReplace filename ".ttf" "" ++ " which is licensed under the GUST Font License (GFL)\n",
   "% The original TeXGyre fonts can be downloaded from https://www.gust.org.pl/projects/e-foundry/tex-gyre\n",
   "% The license can be accessed at https://www.gust.org.pl/projects/e-foundry/licenses/GUST-FONT-LICENSE.txt/view\n\n",
   "11 dict begin\n",
   "  /FontName /" ++ ps_name ++ " def\n",
   "  /FontType 42 def\n",
   "  /FontMatrix [1 0 0 1 0 0] def\n",
   "  /PaintType 0 def\n",
   "  /Encoding StandardEncoding def\n",
   "  /FontBBox [" ++ toString t.xMin ++ " " ++ toString t.yMin ++ " " ++
     toString t.xMax ++ " " ++ toString t.yMax ++ "] def\n",
   "  /CharStrings " ++ toString ((charstringsOf table t).length + 5) ++ " dict dup begin\n",
   "    /.notdef 0 def\n"]
  ++ charstringWrites (charstringsOf table t)
  ++ ["\n  end def\n",
      "  /sfnts [\n"]
  ++ sfntsWrites t.binaryData
  ++ ["  ] def\n",
      "/" ++ ps_name ++ " currentdict end definefont pop\n"]

/-- `options.drop_tables`, the fixed table list handed to the external
subsetter. -/
def drop_tables : List String :=
  ["DSIG", "FFTM", "GDEF", "GPOS", "GSUB", "LTSH", "VDMX", "hdmx",
   "kern", "vhea", "vmtx", "prep", "cvt ", "fpgm", "gasp",
   "name", "OS/2", "post"]

/-- What the file system / font loader does for one source file:
the file is missing, or `TTFont(source_file)` raises, or it loads. -/
inductive LoadResult where
  | missing : LoadResult
  | loadError (msg : String) : LoadResult
  | ok (tt : Font) : LoadResult

/-- Observable effects of one `process_font_entry` call: the lines it
prints and the output file it writes (path and contents), if any. -/
structure RunResult where
  prints : List String
  written : Option (String × String)

/-- The module-level tables, threaded explicitly as state so that their
(non-)mutation across calls is a provable statement. -/
structure Tables where
  psToFilename : List (String × String)
  stdEnc : List (String × Nat)

/-- The tables as module load builds them. -/
def initTables : Tables :=
  { psToFilename := PS_TO_FILENAME, stdEnc := STD_ENC_MAP }

/-- `process_font_entry(ps_name, filename)`, with the module tables
threaded as state, the external subsetting+serialization pass abstracted
as `subsetFont` (applied to `STD_ENC_MAP.values()` and the loaded font),
and any exception of the phases after loading (subsetting, saving,
writing the output) given by `laterExc`.  An uncaught exception is an
`Except.error`; the `try/except` around `TTFont` is the only handler. -/
def process_font_entryST (tbls : Tables) (subsetFont : List Nat → Font → Font)
    (ps_name filename : String) (load : LoadResult) (laterExc : Option String) :
    Tables × Except String RunResult :=
  let source_file := sourcePathOf filename
  let generating := "Generating " ++ ps_name ++ " from " ++ source_file ++ "..."
  match load with
  | .missing =>
    (tbls, .ok { prints := [generating, "  [SKIPPED] File not found: " ++ source_file],
                 written := none })
  | .loadError msg =>
    (tbls, .ok { prints := [generating, "  [ERROR] Could not load font: " ++ msg],
                 written := none })
  | .ok tt0 =>
    match laterExc with
    | some e => (tbls, .error e)
    | none =>
      let tt := subsetFont (tbls.stdEnc.map (fun p => p.2)) tt0
      let out_name := outNameOf ps_name
      (tbls, .ok { prints := [generating, "  -> Success: " ++ out_name ++ " written."],
                   written := some (out_name, String.join (fileWrites tbls.stdEnc ps_name filename tt)) })

/-- `process_font_entry` with the tables fixed to their load-time values. -/
def process_font_entry (subsetFont : List Nat → Font → Font)
    (ps_name filename : String) (load : LoadResult) (laterExc : Option String) :
    Except String RunResult :=
  (process_font_entryST initTables subsetFont ps_name filename load laterExc).2

/-- The `__main__` loop over `PS_TO_FILENAME.items()`, threading the
tables through every call; `fs` and `laterExc` describe the external
world per source filename.  An uncaught exception aborts the remaining
entries. -/
def batchStep (subsetFont : List Nat → Font → Font) (fs : String → LoadResult)
    (laterExc : String → Option String)
    (acc : Tables × Except String (List RunResult)) (entry : String × String) :
    Tables × Except String (List RunResult) :=
  match acc.2 with
  | .error e => (acc.1, .error e)
  | .ok rs =>
    match process_font_entryST acc.1 subsetFont entry.1 entry.2 (fs entry.2) (laterExc entry.2) with
    | (tbls', .error e) => (tbls', .error e)
    | (tbls', .ok r) => (tbls', .ok (rs ++ [r]))

def mainRunST (tbls : Tables) (subsetFont : List Nat → Font → Font)
    (fs : String → LoadResult) (laterExc : String → Option String) :
    Tables × Except String (List RunResult) :=
  tbls.psToFilename.foldl (batchStep subsetFont fs laterExc) (tbls, .ok [])

/-- The batch run with the load-time tables. -/
def mainRun (subsetFont : List Nat → Font → Font)
    (fs : String → LoadResult) (laterExc : String → Option String) :
    Except String (List RunResult) :=
  (mainRunST initTables subsetFont fs laterExc).2

/-- Number of entries the batch processed to completion, when no uncaught
exception aborted it. -/
def mainResultsLen (subsetFont : List Nat → Font → Font)
    (fs : String → LoadResult) (laterExc : String → Option String) : Option Nat :=
  match mainRun subsetFont fs laterExc with
  | .ok rs => some rs.length
  | .error _ => none

/-- If `pre` is a prefix of `s`, the remainder of `s` after it. -/
def matchPre : List Char → List Char → Option (List Char)
  | [], s => some s
  | _ :: _, [] => none
  | p :: ps, c :: cs => if p = c then matchPre ps cs else none

/-- Reads a value back out of the emitted text: the first write starting
with `pre`, with `pre` and the trailing `suffix` stripped. -/
def emittedValue (pre suffix : String) (writes : List String) : Option String :=
  match writes.findSome? (fun w => matchPre pre.data w.data) with
  | some rest => some (String.mk (rest.take (rest.length - suffix.data.length)))
  | none => none

/-- A hexadecimal digit character, either case. -/
def isHexDigitChar (c : Char) : Bool :=
  (48 ≤ c.toNat && c.toNat ≤ 57) || (97 ≤ c.toNat && c.toNat ≤ 102) ||
    (65 ≤ c.toNat && c.toNat ≤ 70)

/-- An upper-case hexadecimal digit character (`0`–`9`, `A`–`F`). -/
def isUpperHexChar (c : Char) : Bool :=
  (48 ≤ c.toNat && c.toNat ≤ 57) || (65 ≤ c.toNat && c.toNat ≤ 70)

/-- Numeric value of a hexadecimal digit character. -/
def hexVal : Char → Option Nat := fun c =>
  if 48 ≤ c.toNat ∧ c.toNat ≤ 57 then some (c.toNat - 48)
  else if 97 ≤ c.toNat ∧ c.toNat ≤ 102 then some (c.toNat - 87)
  else if 65 ≤ c.toNat ∧ c.toNat ≤ 70 then some (c.toNat - 55)
  else none

/-- Hex decoding: two characters per byte, as `binascii.unhexlify` would
read the payload back. -/
def unhexlify : List Char → Option (List Nat)
  | [] => some []
  | [_] => none
  | c1 :: c2 :: rest =>
    match hexVal c1, hexVal c2, unhexlify rest with
    | some hi, some lo, some bs => some ((16 * hi + lo) :: bs)
    | _, _, _ => none

/-- The hex-digit characters appearing in the emitted `sfnts` array text,
in order: the concatenation of all hex segments written inside it (the
surrounding `<`, `>`, spaces and newlines are not hex digits). -/
def emittedSfntsHex (binary_data : List Nat) : List Char :=
  ((sfntsWrites binary_data).flatMap String.data).filter isHexDigitChar

/-- A small concrete font used to exercise the theorems on explicit inputs. -/
def exampleFont : Font :=
  { cmap := [(0x41, "gA"), (0x27, "gq"), (0x60, "gg")]
    glyphOrder := [".notdef", "gA", "gq", "gg"]
    xMin := -12, yMin := -3, xMax := 45, yMax := 67
    binaryData := [0, 15, 255, 16, 171] }

theorem chunksOfAux_nil (n fuel : Nat) : chunksOfAux (α := α) n fuel [] = [] := by
  cases fuel <;> rfl

theorem chunksOfAux_cons (n fuel : Nat) (c : α) (cs : List α) :
    chunksOfAux n (fuel + 1) (c :: cs) =
      ((c :: cs).take n) :: chunksOfAux n fuel ((c :: cs).drop n) := rfl

theorem chunksOfAux_flatten {n : Nat} (hn : 0 < n) :
    ∀ (fuel : Nat) (l : List α), l.length ≤ fuel → (chunksOfAux n fuel l).flatten = l := by
  intro fuel
  induction fuel with
  | zero =>
    intro l hl
    have : l = [] := List.eq_nil_of_length_eq_zero (Nat.le_zero.mp hl)
    subst this
    simp [chunksOfAux_nil]
  | succ fuel ih =>
    intro l hl
    cases l with
    | nil => simp [chunksOfAux_nil]
    | cons c cs =>
      rw [chunksOfAux_cons, List.flatten_cons, ih]
      · exact List.take_append_drop n (c :: cs)
      · simp only [List.length_drop, List.length_cons] at *
        omega

theorem chunksOf_flatten {n : Nat} (hn : 0 < n) (l : List α) :
    (chunksOf n l).flatten = l :=
  chunksOfAux_flatten hn _ l le_rfl

theorem mem_chunksOfAux {n : Nat} (hn : 0 < n) :
    ∀ (fuel : Nat) (l : List α), ∀ c ∈ chunksOfAux n fuel l, c.length ≤ n ∧ c ≠ [] := by
  intro fuel
  induction fuel with
  | zero =>
    intro l c hc
    cases l with
    | nil => simp [chunksOfAux_nil] at hc
    | cons x xs => simp [chunksOfAux] at hc
  | succ fuel ih =>
    intro l c hc
    cases l with
    | nil => simp [chunksOfAux_nil] at hc
    | cons x xs =>
      rw [chunksOfAux_cons] at hc
      rcases List.mem_cons.mp hc with h | h
      · subst h
        constructor
        · simp only [List.length_take]
          exact Nat.min_le_left _ _
        · obtain ⟨m, rfl⟩ := Nat.exists_eq_succ_of_ne_zero (Nat.pos_iff_ne_zero.mp hn)
          simp [List.take_cons]
      · exact ih _ c h

theorem dropLast_chunksOfAux {n : Nat} :
    ∀ (fuel : Nat) (l : List α), ∀ c ∈ (chunksOfAux n fuel l).dropLast, c.length = n := by
  intro fuel
  induction fuel with
  | zero =>
    intro l c hc
    cases l with
    | nil => simp [chunksOfAux_nil] at hc
    | cons x xs => simp [chunksOfAux] at hc
  | succ fuel ih =>
    intro l c hc
    cases l with
    | nil => simp [chunksOfAux_nil] at hc
    | cons x xs =>
      rw [chunksOfAux_cons] at hc
      rcases hrest : chunksOfAux n fuel ((x :: xs).drop n) with _ | ⟨r, rs⟩
      · rw [hrest] at hc; simp at hc
      · rw [hrest] at hc
        rw [List.dropLast_cons_of_ne_nil (by simp)] at hc
        rcases List.mem_cons.mp hc with h | h
        · subst h
          have hdrop : (x :: xs).drop n ≠ [] := by
            intro hd
            rw [hd, chunksOfAux_nil] at hrest
            exact absurd hrest.symm (List.cons_ne_nil _ _)
          have hlen : n < (x :: xs).length := by
            by_contra hle
            exact hdrop (List.drop_eq_nil_of_le (Nat.le_of_not_lt hle))
          simp only [List.length_take, List.length_cons] at hlen ⊢
          omega
        · rw [← hrest] at h
          exact ih _ c h

theorem dropLast_chunksOf {n : Nat} (l : List α) :
    ∀ c ∈ (chunksOf n l).dropLast, c.length = n :=
  dropLast_chunksOfAux _ l

theorem mem_chunksOf {n : Nat} (hn : 0 < n) (l : List α) :
    ∀ c ∈ chunksOf n l, c.length ≤ n ∧ c ≠ [] :=
  mem_chunksOfAux hn _ l

theorem hex_digit_upper : ∀ k < 16, isUpperHexChar (asciiUpper (hexDigitLower k)) = true := by
  decide

theorem hexVal_digit : ∀ k < 16, hexVal (asciiUpper (hexDigitLower k)) = some k := by
  decide

theorem upper_imp_hexDigit (c : Char) (h : isUpperHexChar c = true) :
    isHexDigitChar c = true := by
  simp only [isUpperHexChar, Bool.or_eq_true, Bool.and_eq_true, decide_eq_true_eq] at h
  simp only [isHexDigitChar, Bool.or_eq_true, Bool.and_eq_true, decide_eq_true_eq]
  omega

theorem hexStrOf_cons (b : Nat) (bs : List Nat) :
    hexStrOf (b :: bs) =
      asciiUpper (hexDigitLower (b / 16)) :: asciiUpper (hexDigitLower (b % 16)) :: hexStrOf bs := rfl

theorem hexStrOf_append (a b : List Nat) : hexStrOf (a ++ b) = hexStrOf a ++ hexStrOf b := by
  simp [hexStrOf, hexlifyLower]

theorem mem_hexStrOf_upper {bs : List Nat} (hb : ∀ b ∈ bs, b < 256) :
    ∀ c ∈ hexStrOf bs, isUpperHexChar c = true := by
  induction bs with
  | nil => intro c hc; simp [hexStrOf, hexlifyLower] at hc
  | cons b bs ih =>
    intro c hc
    rw [hexStrOf_cons] at hc
    have hblt : b < 256 := hb b (List.mem_cons_self b bs)
    rcases List.mem_cons.mp hc with h | hc'
    · subst h
      exact hex_digit_upper _ (Nat.div_lt_of_lt_mul (by omega))
    · rcases List.mem_cons.mp hc' with h | hc''
      · subst h
        exact hex_digit_upper _ (Nat.mod_lt _ (by omega))
      · exact ih (fun x hx => hb x (List.mem_cons_of_mem _ hx)) c hc''

theorem unhexlify_hexStrOf {bs : List Nat} (hb : ∀ b ∈ bs, b < 256) :
    unhexlify (hexStrOf bs) = some bs := by
  induction bs with
  | nil => rfl
  | cons b bs ih =>
    have hblt : b < 256 := hb b (List.mem_cons_self b bs)
    rw [hexStrOf_cons]
    show (match hexVal (asciiUpper (hexDigitLower (b / 16))),
            hexVal (asciiUpper (hexDigitLower (b % 16))), unhexlify (hexStrOf bs) with
      | some hi, some lo, some l => some ((16 * hi + lo) :: l)
      | _, _, _ => none) = some (b :: bs)
    rw [hexVal_digit _ (Nat.div_lt_of_lt_mul (by omega)),
        hexVal_digit _ (Nat.mod_lt _ (by omega)),
        ih (fun x hx => hb x (List.mem_cons_of_mem _ hx))]
    simp
    omega

theorem filter_hex_of_all {l : List Char} (h : ∀ c ∈ l, isHexDigitChar c = true) :
    l.filter isHexDigitChar = l :=
  List.filter_eq_self.mpr h

theorem segment_lines_filter :
    ∀ (ps : List (Nat × List Char)), (∀ p ∈ ps, ∀ c ∈ p.2, isHexDigitChar c = true) →
    (((ps.map (fun p => (if p.1 == 0 then "" else "      ") ++ String.mk p.2 ++ "\n")).flatMap
        String.data).filter isHexDigitChar) = (ps.map Prod.snd).flatten := by
  intro ps
  induction ps with
  | nil => intro _; rfl
  | cons p ps ih =>
    intro h
    simp only [List.map_cons, List.flatMap_cons, List.filter_append, List.flatten_cons,
      List.map_cons]
    congr 1
    · have hdata : ((if p.1 == 0 then "" else "      ") ++ String.mk p.2 ++ "\n").data
        = (if p.1 == 0 then "" else "      ").data ++ p.2 ++ ['\n'] := by
        rw [String.data_append, String.data_append]
      rw [hdata]
      simp only [List.filter_append]
      have h1 : ((if p.1 == 0 then "" else "      ") : String).data.filter isHexDigitChar = [] := by
        rcases Bool.eq_false_or_eq_true (p.1 == 0) with hb | hb <;> rw [hb] <;> rfl
      have h2 : ['\n'].filter isHexDigitChar = [] := rfl
      rw [h1, h2, filter_hex_of_all (h p (List.mem_cons_self _ _))]
      simp
    · exact ih (fun q hq => h q (List.mem_cons_of_mem _ hq))

theorem segmentWrites_hex_content (hex : List Char)
    (hall : ∀ c ∈ hex, isHexDigitChar c = true) :
    ((segmentWrites hex).flatMap String.data).filter isHexDigitChar = hex := by
  unfold segmentWrites
  rw [segment_lines_filter]
  · rw [List.enum_map_snd]
    exact chunksOf_flatten (by omega) hex
  · intro p hp c hc
    apply hall
    have hsnd : p.2 ∈ hexLineChunks hex := by
      have hm : p.2 ∈ (hexLineChunks hex).enum.map Prod.snd :=
        List.mem_map_of_mem Prod.snd hp
      rwa [List.enum_map_snd] at hm
    have hfl : c ∈ (hexLineChunks hex).flatten := List.mem_flatten.mpr ⟨p.2, hsnd, hc⟩
    rw [hexLineChunks] at hfl
    rwa [chunksOf_flatten (by omega) hex] at hfl

theorem sfnts_blocks_filter :
    ∀ (cl : List (List Nat)), (∀ ch ∈ cl, ∀ b ∈ ch, b < 256) →
    (((cl.flatMap (fun chunk => "    <" :: (segmentWrites (hexStrOf chunk) ++ ["    >\n"]))).flatMap
        String.data).filter isHexDigitChar) = hexStrOf cl.flatten := by
  intro cl
  induction cl with
  | nil => intro _; rfl
  | cons ch cl ih =>
    intro h
    simp only [List.flatMap_cons, List.flatMap_append, List.filter_append, List.flatten_cons]
    rw [hexStrOf_append]
    have hhd : ("    <" : String).data.filter isHexDigitChar = [] := rfl
    have htl : ((["    >\n"] : List String).flatMap String.data).filter isHexDigitChar = [] := rfl
    have hseg : ((segmentWrites (hexStrOf ch)).flatMap String.data).filter isHexDigitChar
        = hexStrOf ch := by
      apply segmentWrites_hex_content
      intro c hc
      exact upper_imp_hexDigit c
        (mem_hexStrOf_upper (h ch (List.mem_cons_self _ _)) c hc)
    calc ("    <" : String).data.filter isHexDigitChar ++
          (((segmentWrites (hexStrOf ch)).flatMap String.data).filter isHexDigitChar ++
            ((["    >\n"] : List String).flatMap String.data).filter isHexDigitChar) ++
          ((cl.flatMap (fun chunk => "    <" :: (segmentWrites (hexStrOf chunk) ++ ["    >\n"]))).flatMap
              String.data).filter isHexDigitChar
        = hexStrOf ch ++ hexStrOf cl.flatten := by
          rw [hhd, htl, hseg, ih (fun q hq b hb => h q (List.mem_cons_of_mem _ hq) b hb)]
          simp

theorem emittedSfntsHex_eq (binary_data : List Nat) (hb : ∀ b ∈ binary_data, b < 256) :
    emittedSfntsHex binary_data = hexStrOf binary_data := by
  unfold emittedSfntsHex sfntsWrites
  rw [sfnts_blocks_filter]
  · rw [sfntsChunks, chunksOf_flatten (by omega)]
  · intro ch hch b hbm
    apply hb
    have : b ∈ (sfntsChunks binary_data).flatten := List.mem_flatten.mpr ⟨ch, hch, hbm⟩
    rw [sfntsChunks, chunksOf_flatten (by omega)] at this
    exact this

/-- Claim C2: hex-decoding the concatenation of all hex segments written
inside the sfnts array yields exactly, byte for byte, the serialized
binary data of the subsetted font, and every hex digit emitted is
upper-case. -/
theorem sfnts_hex_roundtrip (binary_data : List Nat)
    (hbytes : ∀ b ∈ binary_data, b < 256) :
    unhexlify (emittedSfntsHex binary_data) = some binary_data ∧
    ∀ c ∈ emittedSfntsHex binary_data, isUpperHexChar c = true := by
  have he := emittedSfntsHex_eq binary_data hbytes
  refine ⟨?_, ?_⟩
  · rw [he]; exact unhexlify_hexStrOf hbytes
  · rw [he]; exact mem_hexStrOf_upper hbytes

theorem sfnts_hex_roundtrip_check :
    unhexlify (emittedSfntsHex [0, 15, 255, 16, 171]) = some [0, 15, 255, 16, 171] :=
  (sfnts_hex_roundtrip [0, 15, 255, 16, 171] (by decide)).1

/-- Claim C6: the serialized binary data is split for the sfnts array into
consecutive segments of exactly 32768 bytes (the final segment possibly
shorter), and within each segment the hex text is written as lines of
exactly 70 hex characters (the final line possibly shorter). -/
theorem sfnts_chunk_shapes (binary_data : List Nat) :
    (sfntsChunks binary_data).flatten = binary_data ∧
    (∀ c ∈ (sfntsChunks binary_data).dropLast, c.length = 32768) ∧
    (∀ c ∈ sfntsChunks binary_data, c.length ≤ 32768 ∧ c ≠ []) ∧
    (∀ chunk : List Nat,
      (hexLineChunks (hexStrOf chunk)).flatten = hexStrOf chunk ∧
      (∀ s ∈ (hexLineChunks (hexStrOf chunk)).dropLast, s.length = 70) ∧
      (∀ s ∈ hexLineChunks (hexStrOf chunk), s.length ≤ 70 ∧ s ≠ [])) := by
  refine ⟨chunksOf_flatten (by omega) _, dropLast_chunksOf _, mem_chunksOf (by omega) _, ?_⟩
  intro chunk
  exact ⟨chunksOf_flatten (by omega) _, dropLast_chunksOf _, mem_chunksOf (by omega) _⟩

set_option maxRecDepth 10000 in
theorem std_enc_eval : STD_ENC_MAP = stdEncBase ++
    [("zero", 48), ("one", 49), ("two", 50), ("three", 51), ("four", 52), ("five", 53),
     ("six", 54), ("seven", 55), ("eight", 56), ("nine", 57),
     ("A", 65), ("B", 66), ("C", 67), ("D", 68), ("E", 69), ("F", 70), ("G", 71), ("H", 72),
     ("I", 73), ("J", 74), ("K", 75), ("L", 76), ("M", 77), ("N", 78), ("O", 79), ("P", 80),
     ("Q", 81), ("R", 82), ("S", 83), ("T", 84), ("U", 85), ("V", 86), ("W", 87), ("X", 88),
     ("Y", 89), ("Z", 90),
     ("a", 97), ("b", 98), ("c", 99), ("d", 100), ("e", 101), ("f", 102), ("g", 103),
     ("h", 104), ("i", 105), ("j", 106), ("k", 107), ("l", 108), ("m", 109), ("n", 110),
     ("o", 111), ("p", 112), ("q", 113), ("r", 114), ("s", 115), ("t", 116), ("u", 117),
     ("v", 118), ("w", 119), ("x", 120), ("y", 121), ("z", 122)] := by
  decide

set_option maxRecDepth 10000 in
theorem std_enc_keys_nodup : (STD_ENC_MAP.map Prod.fst).Nodup := by
  rw [std_enc_eval]; decide

theorem entries_cons_some {f : Font} {u : Nat} {g : String} (k : String)
    (rest : List (String × Nat)) (hc : cmapLookup f u = some g) :
    charstringEntriesOf ((k, u) :: rest) f =
      (k, getGlyphID f g) :: charstringEntriesOf rest f := by
  simp [charstringEntriesOf, List.filterMap_cons, hc]

theorem entries_cons_none {f : Font} {u : Nat} (k : String)
    (rest : List (String × Nat)) (hc : cmapLookup f u = none) :
    charstringEntriesOf ((k, u) :: rest) f = charstringEntriesOf rest f := by
  simp [charstringEntriesOf, List.filterMap_cons, hc]

theorem key_mem_of_entry (table : List (String × Nat)) (f : Font) :
    ∀ e ∈ charstringEntriesOf table f, e.1 ∈ table.map Prod.fst := by
  induction table with
  | nil => intro e he; cases he
  | cons p rest ih =>
    obtain ⟨k, u⟩ := p
    intro e he
    cases hcu : cmapLookup f u with
    | some g =>
      rw [entries_cons_some k rest hcu] at he
      rcases List.mem_cons.mp he with h | h
      · subst h; simp
      · simp only [List.map_cons]
        exact List.mem_cons_of_mem _ (ih e h)
    | none =>
      rw [entries_cons_none k rest hcu] at he
      simp only [List.map_cons]
      exact List.mem_cons_of_mem _ (ih e he)

theorem filter_entries_of_not_mem (table : List (String × Nat)) (f : Font) (name : String)
    (h : name ∉ table.map Prod.fst) :
    (charstringEntriesOf table f).filter (fun e => e.1 == name) = [] := by
  rw [List.filter_eq_nil_iff]
  intro e he hpe
  have : e.1 = name := by simpa using hpe
  exact h (this ▸ key_mem_of_entry table f e he)

theorem filter_entries_unique (table : List (String × Nat))
    (hnd : (table.map Prod.fst).Nodup) (f : Font) (name : String) (uni : Nat) (g : String)
    (hmem : (name, uni) ∈ table) (hc : cmapLookup f uni = some g) :
    (charstringEntriesOf table f).filter (fun e => e.1 == name) =
      [(name, getGlyphID f g)] := by
  induction table with
  | nil => cases hmem
  | cons p rest ih =>
    obtain ⟨k, u⟩ := p
    rw [List.map_cons] at hnd
    have hnd1 : k ∉ rest.map Prod.fst := (List.nodup_cons.mp hnd).1
    have hnd2 := (List.nodup_cons.mp hnd).2
    rcases List.mem_cons.mp hmem with heq | hmem'
    · injection heq with h1 h2
      subst h1
      subst h2
      rw [entries_cons_some name rest hc, List.filter_cons_of_pos (by simp),
        filter_entries_of_not_mem rest f name hnd1]
    · have hkname : k ≠ name := by
        intro h
        subst h
        exact hnd1 (List.mem_map.mpr ⟨(k, uni), hmem', rfl⟩)
      cases hcu : cmapLookup f u with
      | some g' =>
        rw [entries_cons_some k rest hcu,
          List.filter_cons_of_neg (by simp [hkname])]
        exact ih hnd2 hmem'
      | none =>
        rw [entries_cons_none k rest hcu]
        exact ih hnd2 hmem'

theorem filter_entries_empty (table : List (String × Nat))
    (hnd : (table.map Prod.fst).Nodup) (f : Font) (name : String) (uni : Nat)
    (hmem : (name, uni) ∈ table) (hc : cmapLookup f uni = none) :
    (charstringEntriesOf table f).filter (fun e => e.1 == name) = [] := by
  induction table with
  | nil => cases hmem
  | cons p rest ih =>
    obtain ⟨k, u⟩ := p
    rw [List.map_cons] at hnd
    have hnd1 : k ∉ rest.map Prod.fst := (List.nodup_cons.mp hnd).1
    have hnd2 := (List.nodup_cons.mp hnd).2
    rcases List.mem_cons.mp hmem with heq | hmem'
    · injection heq with h1 h2
      subst h1
      subst h2
      rw [entries_cons_none name rest hc, filter_entries_of_not_mem rest f name hnd1]
    · have hkname : k ≠ name := by
        intro h
        subst h
        exact hnd1 (List.mem_map.mpr ⟨(k, uni), hmem', rfl⟩)
      cases hcu : cmapLookup f u with
      | some g' =>
        rw [entries_cons_some k rest hcu,
          List.filter_cons_of_neg (by simp [hkname])]
        exact ih hnd2 hmem'
      | none =>
        rw [entries_cons_none k rest hcu]
        exact ih hnd2 hmem'

/-- Claim C3: every encoding-table glyph name whose code point is present
in the best cmap of the subsetted font gets exactly one CharStrings
definition; its glyph index is the glyph ID the font assigns to the glyph
the cmap maps that code point to, a valid index for the font. -/
theorem charstrings_unique_valid (f : Font) (hwf : f.WF) (name : String) (uni : Nat)
    (hmem : (name, uni) ∈ STD_ENC_MAP) (g : String) (hc : cmapLookup f uni = some g) :
    (charstringEntriesOf STD_ENC_MAP f).filter (fun e => e.1 == name) =
      [(name, getGlyphID f g)] ∧
    getGlyphID f g < f.glyphOrder.length ∧
    renderCharstring (name, getGlyphID f g) ∈ charstringsOf STD_ENC_MAP f := by
  have h1 := filter_entries_unique STD_ENC_MAP std_enc_keys_nodup f name uni g hmem hc
  refine ⟨h1, ?_, ?_⟩
  · have hg : g ∈ f.glyphOrder := by
      unfold cmapLookup at hc
      cases hfind : f.cmap.find? (fun p => p.1 == uni) with
      | none => rw [hfind] at hc; cases hc
      | some p =>
        rw [hfind] at hc
        have hp : p ∈ f.cmap := List.mem_of_find?_eq_some hfind
        have hpg : p.2 = g := by simpa using hc
        exact hpg ▸ hwf.2.1 p hp
    rw [getGlyphID]
    exact List.indexOf_lt_length.mpr hg
  · have hmemf : (name, getGlyphID f g) ∈
        (charstringEntriesOf STD_ENC_MAP f).filter (fun e => e.1 == name) := by
      rw [h1]; exact List.mem_singleton_self _
    exact List.mem_map_of_mem renderCharstring (List.mem_of_mem_filter hmemf)

theorem charstrings_unique_valid_check :
    (charstringEntriesOf STD_ENC_MAP exampleFont).filter (fun e => e.1 == "A") =
      [("A", 1)] :=
  (charstrings_unique_valid exampleFont ⟨by decide, by decide, by decide⟩ "A" 65
    (std_enc_eval.symm ▸ (by decide)) "gA" rfl).1

/-- Claim C4: an encoding-table glyph name whose code point is absent from
the best cmap produces no CharStrings entry at all (no placeholder), and
the conversion raises no error for it. -/
theorem absent_cmap_omitted (f : Font) (name : String) (uni : Nat)
    (hmem : (name, uni) ∈ STD_ENC_MAP) (hc : cmapLookup f uni = none) :
    (charstringEntriesOf STD_ENC_MAP f).filter (fun e => e.1 == name) = [] ∧
    ∀ (subsetFont : List Nat → Font → Font) (ps_name filename : String) (tt0 : Font),
      (process_font_entry subsetFont ps_name filename (.ok tt0) none).isOk = true := by
  refine ⟨filter_entries_empty STD_ENC_MAP std_enc_keys_nodup f name uni hmem hc, ?_⟩
  intro subsetFont ps_name filename tt0
  rfl

theorem absent_cmap_omitted_check :
    (charstringEntriesOf STD_ENC_MAP exampleFont).filter (fun e => e.1 == "minus") = [] :=
  (absent_cmap_omitted exampleFont "minus" 0x2212
    (std_enc_eval.symm ▸ (by decide)) rfl).1

/-- Claim C10: when two distinct encoding-table names map to the same code
point (quoteright and quotesingle to U+0027, quoteleft and grave to
U+0060) and that code point is present in the cmap, both names are
emitted as separate CharStrings entries carrying the same glyph index. -/
theorem duplicate_codepoint_shared_gid (f : Font) :
    (∀ g, cmapLookup f 0x27 = some g →
      (charstringEntriesOf STD_ENC_MAP f).filter (fun e => e.1 == "quoteright") =
        [("quoteright", getGlyphID f g)] ∧
      (charstringEntriesOf STD_ENC_MAP f).filter (fun e => e.1 == "quotesingle") =
        [("quotesingle", getGlyphID f g)]) ∧
    (∀ g, cmapLookup f 0x60 = some g →
      (charstringEntriesOf STD_ENC_MAP f).filter (fun e => e.1 == "quoteleft") =
        [("quoteleft", getGlyphID f g)] ∧
      (charstringEntriesOf STD_ENC_MAP f).filter (fun e => e.1 == "grave") =
        [("grave", getGlyphID f g)]) ∧
    ("quoteright", 0x27) ∈ STD_ENC_MAP ∧ ("quotesingle", 0x27) ∈ STD_ENC_MAP ∧
    ("quoteleft", 0x60) ∈ STD_ENC_MAP ∧ ("grave", 0x60) ∈ STD_ENC_MAP := by
  refine ⟨?_, ?_, ?_, ?_, ?_, ?_⟩
  · intro g hg
    exact ⟨filter_entries_unique STD_ENC_MAP std_enc_keys_nodup f "quoteright" 0x27 g
      (std_enc_eval.symm ▸ (by decide)) hg,
      filter_entries_unique STD_ENC_MAP std_enc_keys_nodup f "quotesingle" 0x27 g
      (std_enc_eval.symm ▸ (by decide)) hg⟩
  · intro g hg
    exact ⟨filter_entries_unique STD_ENC_MAP std_enc_keys_nodup f "quoteleft" 0x60 g
      (std_enc_eval.symm ▸ (by decide)) hg,
      filter_entries_unique STD_ENC_MAP std_enc_keys_nodup f "grave" 0x60 g
      (std_enc_eval.symm ▸ (by decide)) hg⟩
  · exact std_enc_eval.symm ▸ (by decide)
  · exact std_enc_eval.symm ▸ (by decide)
  · exact std_enc_eval.symm ▸ (by decide)
  · exact std_enc_eval.symm ▸ (by decide)

theorem duplicate_codepoint_shared_gid_check :
    (charstringEntriesOf STD_ENC_MAP exampleFont).filter (fun e => e.1 == "quotesingle") =
      [("quotesingle", 2)] :=
  ((duplicate_codepoint_shared_gid exampleFont).1 "gq" rfl).2

theorem findSome?_cons_none {f : α → Option β} {a : α} {l : List α} (h : f a = none) :
    (a :: l).findSome? f = l.findSome? f := by
  simp [List.findSome?_cons, h]

theorem findSome?_cons_some {f : α → Option β} {a : α} {l : List α} {b : β} (h : f a = some b) :
    (a :: l).findSome? f = some b := by
  simp [List.findSome?_cons, h]

theorem take_strip (v suffix : List Char) :
    (v ++ suffix).take ((v ++ suffix).length - suffix.length) = v := by
  rw [List.length_append]
  have h : v.length + suffix.length - suffix.length = v.length := by omega
  rw [h, List.take_left]

theorem emittedValue_strip (pre suffix : String) (ws : List String) (v : String)
    (h : ws.findSome? (fun w => matchPre pre.data w.data) = some (v.data ++ suffix.data)) :
    emittedValue pre suffix ws = some v := by
  unfold emittedValue
  rw [h]
  show some (String.mk ((v.data ++ suffix.data).take
      ((v.data ++ suffix.data).length - suffix.data.length))) = some v
  rw [take_strip]

theorem fontname_extracted (table : List (String × Nat)) (ps_name filename : String) (t : Font) :
    emittedValue "  /FontName /" " def\n" (fileWrites table ps_name filename t) =
      some ps_name := by
  apply emittedValue_strip
  simp only [fileWrites, List.cons_append, List.nil_append]
  rw [findSome?_cons_none rfl, findSome?_cons_none rfl, findSome?_cons_none rfl,
    findSome?_cons_none rfl]
  exact findSome?_cons_some rfl

theorem fontbbox_extracted (table : List (String × Nat)) (ps_name filename : String) (t : Font) :
    emittedValue "  /FontBBox [" "] def\n" (fileWrites table ps_name filename t) =
      some (toString t.xMin ++ " " ++ toString t.yMin ++ " " ++
        toString t.xMax ++ " " ++ toString t.yMax) := by
  apply emittedValue_strip
  simp only [fileWrites, List.cons_append, List.nil_append]
  rw [findSome?_cons_none rfl, findSome?_cons_none rfl, findSome?_cons_none rfl,
    findSome?_cons_none rfl, findSome?_cons_none rfl, findSome?_cons_none rfl,
    findSome?_cons_none rfl, findSome?_cons_none rfl, findSome?_cons_none rfl]
  exact findSome?_cons_some rfl

set_option maxRecDepth 40000 in
/-- Claim C1: for every entry (ps_name, filename) of the static
name-to-filename mapping, when the source file is present and loads, the
conversion writes the file output/<ps_name>.ps and the emitted /FontName
value is exactly the mapping key ps_name. -/
theorem conversion_writes_named_file (ps_name filename : String)
    (hmem : (ps_name, filename) ∈ PS_TO_FILENAME)
    (subsetFont : List Nat → Font → Font) (tt0 : Font) :
    process_font_entry subsetFont ps_name filename (.ok tt0) none =
      .ok { prints := ["Generating " ++ ps_name ++ " from " ++ sourcePathOf filename ++ "...",
                       "  -> Success: " ++ outNameOf ps_name ++ " written."],
            written := some (outNameOf ps_name,
              String.join (fileWrites STD_ENC_MAP ps_name filename
                (subsetFont (STD_ENC_MAP.map (fun p => p.2)) tt0))) } ∧
    outNameOf ps_name = "output/" ++ (ps_name ++ ".ps") ∧
    emittedValue "  /FontName /" " def\n"
      (fileWrites STD_ENC_MAP ps_name filename
        (subsetFont (STD_ENC_MAP.map (fun p => p.2)) tt0)) = some ps_name :=
  ⟨rfl, rfl, fontname_extracted STD_ENC_MAP ps_name filename _⟩

theorem conversion_writes_named_file_check :
    emittedValue "  /FontName /" " def\n"
      (fileWrites STD_ENC_MAP "TG-Heros" "texgyreheros-regular.ttf"
        ((fun _ f => f : List Nat → Font → Font) (STD_ENC_MAP.map (fun p => p.2)) exampleFont)) =
      some "TG-Heros" :=
  (conversion_writes_named_file "TG-Heros" "texgyreheros-regular.ttf" (by decide)
    (fun _ f => f) exampleFont).2.2

set_option maxRecDepth 40000 in
/-- Claim C5: the emitted FontBBox line contains, in order, the values
xMin, yMin, xMax, yMax of the head table of the font after the subsetting
pass has been applied. -/
theorem fontbbox_matches_subsetted_head (ps_name filename : String)
    (subsetFont : List Nat → Font → Font) (tt0 : Font) :
    process_font_entry subsetFont ps_name filename (.ok tt0) none =
      .ok { prints := ["Generating " ++ ps_name ++ " from " ++ sourcePathOf filename ++ "...",
                       "  -> Success: " ++ outNameOf ps_name ++ " written."],
            written := some (outNameOf ps_name,
              String.join (fileWrites STD_ENC_MAP ps_name filename
                (subsetFont (STD_ENC_MAP.map (fun p => p.2)) tt0))) } ∧
    emittedValue "  /FontBBox [" "] def\n"
      (fileWrites STD_ENC_MAP ps_name filename
        (subsetFont (STD_ENC_MAP.map (fun p => p.2)) tt0)) =
      some (toString (subsetFont (STD_ENC_MAP.map (fun p => p.2)) tt0).xMin ++ " " ++
        toString (subsetFont (STD_ENC_MAP.map (fun p => p.2)) tt0).yMin ++ " " ++
        toString (subsetFont (STD_ENC_MAP.map (fun p => p.2)) tt0).xMax ++ " " ++
        toString (subsetFont (STD_ENC_MAP.map (fun p => p.2)) tt0).yMax) :=
  ⟨rfl, fontbbox_extracted STD_ENC_MAP ps_name filename _⟩

/-- Claim C9: the emitted CharStrings dictionary always begins with an
entry defining /.notdef as glyph index 0 (a name not drawn from the
encoding table), and the declared dictionary capacity is the number of
encoding-derived entries plus 5, which is always 4 more than the total
number of entries actually emitted including /.notdef. -/
theorem charstrings_notdef_and_capacity (ps_name filename : String) (t : Font) :
    (fileWrites STD_ENC_MAP ps_name filename t).get? 10 =
      some ("  /CharStrings " ++ toString ((charstringsOf STD_ENC_MAP t).length + 5) ++
        " dict dup begin\n") ∧
    (fileWrites STD_ENC_MAP ps_name filename t).get? 11 = some "    /.notdef 0 def\n" ∧
    (charstringsOf STD_ENC_MAP t).length + 5 =
      ((charstringsOf STD_ENC_MAP t).length + 1) + 4 ∧
    ".notdef" ∉ STD_ENC_MAP.map Prod.fst := by
  refine ⟨rfl, rfl, by omega, ?_⟩
  rw [std_enc_eval]
  decide

theorem processST_fst (tbls : Tables) (subsetFont : List Nat → Font → Font)
    (ps_name filename : String) (load : LoadResult) (laterExc : Option String) :
    (process_font_entryST tbls subsetFont ps_name filename load laterExc).1 = tbls := by
  cases load with
  | missing => rfl
  | loadError msg => rfl
  | ok tt0 => cases laterExc with
    | some e => rfl
    | none => rfl

theorem processST_none_ok (tbls : Tables) (subsetFont : List Nat → Font → Font)
    (ps_name filename : String) (load : LoadResult) :
    ∃ r, process_font_entryST tbls subsetFont ps_name filename load none = (tbls, .ok r) := by
  cases load with
  | missing => exact ⟨_, rfl⟩
  | loadError msg => exact ⟨_, rfl⟩
  | ok tt0 => exact ⟨_, rfl⟩

theorem batchStep_fst (subsetFont : List Nat → Font → Font) (fs : String → LoadResult)
    (laterExc : String → Option String) (acc : Tables × Except String (List RunResult))
    (entry : String × String) :
    (batchStep subsetFont fs laterExc acc entry).1 = acc.1 := by
  unfold batchStep
  cases hacc : acc.2 with
  | error e => rfl
  | ok rs =>
    cases hp : process_font_entryST acc.1 subsetFont entry.1 entry.2 (fs entry.2)
        (laterExc entry.2) with
    | mk t r =>
      have ht : t = acc.1 := by
        have := processST_fst acc.1 subsetFont entry.1 entry.2 (fs entry.2) (laterExc entry.2)
        rw [hp] at this
        exact this
      cases r with
      | error e => simpa using ht
      | ok r' => simpa using ht

theorem foldl_batchStep_fst (subsetFont : List Nat → Font → Font) (fs : String → LoadResult)
    (laterExc : String → Option String) :
    ∀ (entries : List (String × String)) (acc : Tables × Except String (List RunResult)),
    (entries.foldl (batchStep subsetFont fs laterExc) acc).1 = acc.1 := by
  intro entries
  induction entries with
  | nil => intro acc; rfl
  | cons e es ih =>
    intro acc
    rw [List.foldl_cons, ih]
    exact batchStep_fst subsetFont fs laterExc acc e

theorem mainRunST_fst (tbls : Tables) (subsetFont : List Nat → Font → Font)
    (fs : String → LoadResult) (laterExc : String → Option String) :
    (mainRunST tbls subsetFont fs laterExc).1 = tbls := by
  unfold mainRunST
  rw [foldl_batchStep_fst]

theorem batchStep_ok (subsetFont : List Nat → Font → Font) (fs : String → LoadResult)
    (laterF : String → Option String) (tbls : Tables) (rs : List RunResult)
    (e : String × String) :
    batchStep subsetFont fs laterF (tbls, .ok rs) e =
      match process_font_entryST tbls subsetFont e.1 e.2 (fs e.2) (laterF e.2) with
      | (tbls', .error err) => (tbls', .error err)
      | (tbls', .ok r) => (tbls', .ok (rs ++ [r])) := rfl

theorem foldl_ok_length (subsetFont : List Nat → Font → Font) (fs : String → LoadResult)
    (laterF : String → Option String) (hl : ∀ fn, laterF fn = none) :
    ∀ (entries : List (String × String)) (tbls : Tables) (rs : List RunResult),
    ∃ rs', entries.foldl (batchStep subsetFont fs laterF) (tbls, .ok rs) = (tbls, .ok rs') ∧
      rs'.length = rs.length + entries.length := by
  intro entries
  induction entries with
  | nil => intro tbls rs; exact ⟨rs, rfl, by simp⟩
  | cons e es ih =>
    intro tbls rs
    obtain ⟨r, hr⟩ := processST_none_ok tbls subsetFont e.1 e.2 (fs e.2)
    have hstep : batchStep subsetFont fs laterF (tbls, .ok rs) e = (tbls, .ok (rs ++ [r])) := by
      rw [batchStep_ok, hl e.2, hr]
    obtain ⟨rs', h1, h2⟩ := ih tbls (rs ++ [r])
    refine ⟨rs', ?_, ?_⟩
    · rw [List.foldl_cons, hstep]
      exact h1
    · simp only [List.length_append, List.length_cons, List.length_nil] at h2
      simp only [List.length_cons]
      omega

/-- Claim C7: a missing source file is reported, no output file is
written, and the routine returns normally; a font-load exception is
caught, reported, no output file is written, and the routine returns
normally; exceptions of any later phase are not caught and propagate; the
batch driver therefore processes every entry when no later-phase
exception occurs. -/
theorem failure_handling (subsetFont : List Nat → Font → Font)
    (ps_name filename : String) (laterExc : Option String) :
    (process_font_entry subsetFont ps_name filename .missing laterExc =
      .ok { prints := ["Generating " ++ ps_name ++ " from " ++ sourcePathOf filename ++ "...",
                       "  [SKIPPED] File not found: " ++ sourcePathOf filename],
            written := none }) ∧
    (∀ msg, process_font_entry subsetFont ps_name filename (.loadError msg) laterExc =
      .ok { prints := ["Generating " ++ ps_name ++ " from " ++ sourcePathOf filename ++ "...",
                       "  [ERROR] Could not load font: " ++ msg],
            written := none }) ∧
    (∀ tt0 e, process_font_entry subsetFont ps_name filename (.ok tt0) (some e) =
      .error e) ∧
    (∀ (fs : String → LoadResult) (laterF : String → Option String),
      (∀ fn, laterF fn = none) →
      mainResultsLen subsetFont fs laterF = some PS_TO_FILENAME.length) := by
  refine ⟨rfl, fun msg => rfl, fun tt0 e => rfl, ?_⟩
  intro fs laterF hl
  obtain ⟨rs', heq, hlen⟩ :=
    foldl_ok_length subsetFont fs laterF hl initTables.psToFilename initTables []
  unfold mainResultsLen mainRun mainRunST
  rw [heq]
  simp only [List.length_nil, Nat.zero_add] at hlen
  show some rs'.length = some PS_TO_FILENAME.length
  rw [hlen]
  rfl

theorem failure_handling_check :
    mainResultsLen (fun _ f => f) (fun _ => .missing) (fun _ => none) =
      some PS_TO_FILENAME.length :=
  (failure_handling (fun _ f => f) "TG-Heros" "texgyreheros-regular.ttf" none).2.2.2
    (fun _ => .missing) (fun _ => none) (fun _ => rfl)

set_option maxRecDepth 40000 in
/-- Claim C8: the name-to-filename mapping and the Standard-Encoding
table, threaded as explicit state, are returned unchanged by every
conversion call and by the whole batch driver, and equal their load-time
values. -/
theorem tables_immutable (tbls : Tables) (subsetFont : List Nat → Font → Font) :
    (∀ (ps_name filename : String) (load : LoadResult) (laterExc : Option String),
      (process_font_entryST tbls subsetFont ps_name filename load laterExc).1 = tbls) ∧
    (∀ (fs : String → LoadResult) (laterExc : String → Option String),
      (mainRunST tbls subsetFont fs laterExc).1 = tbls) ∧
    initTables.psToFilename = PS_TO_FILENAME ∧
    initTables.stdEnc = STD_ENC_MAP :=
  ⟨fun ps_name filename load laterExc =>
      processST_fst tbls subsetFont ps_name filename load laterExc,
    fun fs laterExc => mainRunST_fst tbls subsetFont fs laterExc,
    rfl, rfl⟩

end TexGyre
